import Mathlib

/-!
Verification development for the NBC chatbot repository (PDF structuring
pipeline, embedding indexer, retrieval chat endpoint).

Strings are modelled as `List Char`.  The regular expressions of the source
are embedded as deterministic matchers; where the Python regex engine would
backtrack, the possible alternatives are tried in the engine's order (greedy
first), and quantifiers whose backtracking provably cannot change the result
are implemented by maximal munch.
-/

set_option maxRecDepth 16384

namespace NbcBot

/-! ### Python string primitives -/

/-- Python whitespace class (`\s` over ASCII): space, tab, newline, carriage
return, vertical tab, form feed. -/
def pyIsSpace (c : Char) : Bool :=
  c == ' ' || c == '\t' || c == '\n' || c == '\r' || c == '\x0b' || c == '\x0c'

/-- Python `str.strip()`: remove whitespace from both ends. -/
def pyStrip (l : List Char) : List Char :=
  ((l.dropWhile pyIsSpace).reverse.dropWhile pyIsSpace).reverse

/-- Python `str.strip(".")`: remove periods from both ends. -/
def stripDots (l : List Char) : List Char :=
  ((l.dropWhile (fun c => c == '.')).reverse.dropWhile (fun c => c == '.')).reverse

/-- Python `text.split("\n")`: split at every newline, keeping empty pieces. -/
def splitNl : List Char → List (List Char)
  | [] => [[]]
  | c :: cs =>
    if c = '\n' then [] :: splitNl cs
    else
      match splitNl cs with
      | [] => [[c]]
      | t :: ts => (c :: t) :: ts

/-- Python `"\n".join(lines)`. -/
def joinNl (ls : List (List Char)) : List Char :=
  List.intercalate ['\n'] ls

/-- Python slicing `text[a:b]` for `0 ≤ a ≤ b` (clamped at the ends). -/
def pySlice (text : List Char) (a b : Nat) : List Char :=
  (text.take b).drop a

/-- Does `pat` occur as a contiguous sublist of `l`? -/
def occursIn (pat : List Char) : List Char → Bool
  | [] => pat.isEmpty
  | c :: cs => pat.isPrefixOf (c :: cs) || occursIn pat cs

/-- `re.search(r"Supply Bureau.*valid upto", line)` on a newline-free line:
some occurrence of `Supply Bureau` followed (at or after its end) by an
occurrence of `valid upto`. -/
def hasFooterMark : List Char → Bool
  | [] => false
  | c :: cs =>
    (("Supply Bureau".toList).isPrefixOf (c :: cs) &&
      occursIn ("valid upto".toList) ((c :: cs).drop 13)) ||
    hasFooterMark cs

/-- `clean_paragraphs` (main.py): split on newlines, keep the stripped form of
every line whose stripped form is non-empty and that does not carry the
footer/watermark pattern. -/
def clean_paragraphs (text : List Char) : List (List Char) :=
  (splitNl text).filterMap fun line =>
    if (pyStrip line).isEmpty || hasFooterMark line then none else some (pyStrip line)

/-- Python `s.split(None, 2)`: split on whitespace runs into at most three
tokens, the third being the untouched remainder. -/
def pySplitWs2 (l : List Char) : List (List Char) :=
  let l0 := l.dropWhile pyIsSpace
  if l0.isEmpty then []
  else
    let t1 := l0.takeWhile (fun c => !pyIsSpace c)
    let r1 := (l0.drop t1.length).dropWhile pyIsSpace
    if r1.isEmpty then [t1]
    else
      let t2 := r1.takeWhile (fun c => !pyIsSpace c)
      let r2 := (r1.drop t2.length).dropWhile pyIsSpace
      if r2.isEmpty then [t1, t2] else [t1, t2, r2]

/-- Case-insensitive literal matching: drop `pat` (given in lower case) from
the front of `l`, comparing each source character lowered. -/
def dropCaseless : List Char → List Char → Option (List Char)
  | [], l => some l
  | _ :: _, [] => none
  | p :: ps, c :: cs => if c.toLower = p then dropCaseless ps cs else none

/-! ### Clause marker regex `(?<!\d)(\d{1,2}(?:\.\d+)+)\s+([A-Z][^\n]{5,})`

`(?:\.\d+)+` and `\s+` are matched by maximal munch: shortening `\d+` leaves a
digit in next position (which neither `.` nor `\s` accepts), dropping a group
iteration leaves a `.` (which `\s` rejects), and shortening `\s+` leaves a
whitespace character (never `[A-Z]`), so the engine's backtracking can never
produce a different match.  The `\d{1,2}` quantifier keeps its explicit
try-2-then-1 backtracking. -/

/-- Fuel-indexed parser for `(?:\.\d+)+`: consumes one or more groups of a
period followed by a maximal non-empty digit run; returns the consumed
characters and the remainder. -/
def parseDotGroupsF : Nat → List Char → Option (List Char × List Char)
  | 0, _ => none
  | _ + 1, [] => none
  | fuel + 1, c :: rest =>
    if c = '.' then
      if (rest.takeWhile Char.isDigit).isEmpty then none
      else
        match parseDotGroupsF fuel (rest.drop (rest.takeWhile Char.isDigit).length) with
        | some (g, r) => some (('.' :: rest.takeWhile Char.isDigit) ++ g, r)
        | none => some ('.' :: rest.takeWhile Char.isDigit, rest.drop (rest.takeWhile Char.isDigit).length)
    else none

def parseDotGroups (l : List Char) : Option (List Char × List Char) :=
  parseDotGroupsF l.length l

/-- Tail of the clause pattern after the spacing: `[A-Z][^\n]{5,}` at `r2`,
with `ds`, `g`, `sp` the already-consumed major digits, dot groups and
whitespace. Returns (consumed length, group 1, group 2). -/
def matchTitleTail (ds g sp r2 : List Char) : Option (Nat × List Char × List Char) :=
  match r2 with
  | [] => none
  | u :: r3 =>
    if u.isUpper then
      if 5 ≤ (r3.takeWhile (fun c => !(c == '\n'))).length then
        some (ds.length + g.length + sp.length + 1 + (r3.takeWhile (fun c => !(c == '\n'))).length,
              ds ++ g, u :: r3.takeWhile (fun c => !(c == '\n')))
      else none
    else none

/-- `\s+` (maximal) after the dot groups, then the title tail. -/
def matchSpTail (ds g r1 : List Char) : Option (Nat × List Char × List Char) :=
  if (r1.takeWhile pyIsSpace).isEmpty then none
  else matchTitleTail ds g (r1.takeWhile pyIsSpace) (r1.drop (r1.takeWhile pyIsSpace).length)

/-- `(?:\.\d+)+\s+[A-Z][^\n]{5,}` at `rest`, with `ds` the major digits. -/
def matchTail (ds rest : List Char) : Option (Nat × List Char × List Char) :=
  match parseDotGroups rest with
  | none => none
  | some (g, r1) => matchSpTail ds g r1

/-- The whole pattern (without the lookbehind) anchored at the head of `l`:
`\d{1,2}` greedily tries two digits, then one. -/
def matchClauseAt : List Char → Option (Nat × List Char × List Char)
  | c1 :: c2 :: rest =>
    if c1.isDigit then
      if c2.isDigit then
        match matchTail [c1, c2] rest with
        | some m => some m
        | none => matchTail [c1] (c2 :: rest)
      else matchTail [c1] (c2 :: rest)
    else none
  | _ => none

/-- The negative lookbehind `(?<!\d)`: the previous character of the text
(if any) must not be a digit. -/
def prevIsDigit : Option Char → Bool
  | some c => c.isDigit
  | none => false

/-- Pattern applied at one position, lookbehind included. -/
def clauseMarkerAt (prev : Option Char) (l : List Char) : Option (Nat × List Char × List Char) :=
  if prevIsDigit prev then none else matchClauseAt l

/-- One regex match: absolute span and the two captured groups. -/
structure ClauseMatch where
  start : Nat
  stop : Nat
  num : List Char
  title : List Char
deriving DecidableEq

/-- `finditer` scan: leftmost matches, non-overlapping, resuming at each
match's end; the lookbehind always inspects the actual preceding character. -/
def scanGo : Nat → Option Char → List Char → Nat → List ClauseMatch
  | 0, _, _, _ => []
  | _ + 1, _, [], _ => []
  | fuel + 1, prev, c :: cs, pos =>
    match clauseMarkerAt prev (c :: cs) with
    | some (n, g1, g2) =>
      { start := pos, stop := pos + n, num := g1, title := g2 } ::
        scanGo fuel (some (((c :: cs).take n).getLastD c)) ((c :: cs).drop n) (pos + n)
    | none => scanGo fuel (some c) cs (pos + 1)

def scanClauses (text : List Char) : List ClauseMatch :=
  scanGo (text.length + 1) none text 0

/-! ### Clause block extraction -/

structure ClauseBlock where
  clause_number : List Char
  clause_title : List Char
  paragraphs : List (List Char)
deriving DecidableEq

/-- End of the body of the current block: start of the next match, or end of
text for the last match. -/
def nextStart (text : List Char) : Option ClauseMatch → Nat
  | some m => m.start
  | none => text.length

/-- The loop body of `extract_clause_blocks`. -/
def blocksOf (text : List Char) : List ClauseMatch → List ClauseBlock
  | [] => []
  | m :: rest =>
    { clause_number := m.num,
      clause_title := pyStrip m.title,
      paragraphs := clean_paragraphs (pySlice text m.stop (nextStart text rest.head?)) } ::
    blocksOf text rest

/-- `extract_clause_blocks` (main.py / extract_pdf.py). -/
def extract_clause_blocks (text : List Char) : List ClauseBlock :=
  blocksOf text (scanClauses text)

/-- The per-page segmentation of `process_pdf`: clean the raw text, extract
clause blocks, and fall back to a single untitled block when none are found. -/
def segmentPage (text : List Char) : List ClauseBlock :=
  if (extract_clause_blocks (joinNl (clean_paragraphs text))).isEmpty then
    [{ clause_number := [], clause_title := [],
       paragraphs := clean_paragraphs (joinNl (clean_paragraphs text)) }]
  else extract_clause_blocks (joinNl (clean_paragraphs text))

/-! ### Declarative shape of a clause marker (specification side) -/

/-- The characters of one or more `.<digits>` groups. -/
def dotChunks (gs : List (List Char)) : List Char :=
  (gs.map (fun d => '.' :: d)).flatten

/-- `g` is one or more groups of a period followed by a non-empty digit run. -/
def DotGroupsShape (g : List Char) : Prop :=
  ∃ gs : List (List Char), gs ≠ [] ∧
    (∀ d ∈ gs, d ≠ [] ∧ ∀ c ∈ d, c.isDigit = true) ∧ g = dotChunks gs

/-- A prefix of `l` is a clause marker: a 1–2 digit numeral, one or more
`.<digits>` groups, whitespace, then a title starting with an uppercase letter
followed by at least `k` further non-newline characters. -/
def ClauseShape (k : Nat) (l : List Char) : Prop :=
  ∃ maj g sp u body rest,
    l = maj ++ (g ++ (sp ++ (u :: (body ++ rest)))) ∧
    1 ≤ maj.length ∧ maj.length ≤ 2 ∧ (∀ c ∈ maj, c.isDigit = true) ∧
    DotGroupsShape g ∧
    sp ≠ [] ∧ (∀ c ∈ sp, pyIsSpace c = true) ∧
    u.isUpper = true ∧ k ≤ body.length ∧ (∀ c ∈ body, (c == '\n') = false)

/-! ### Tables -/

/-- A raw cell grid as delivered by the external table detector: rows of
nullable cell strings. -/
abbrev RawGrid := List (List (Option (List Char)))

structure TableRecord where
  title : List Char
  columns : List (List Char)
  rows : List (List (List Char))
  notes : List (List Char)
deriving DecidableEq

/-- Python `c.strip() if c else ""`. -/
def cellClean : Option (List Char) → List Char
  | none => []
  | some s => pyStrip s

/-- `re.match(r'^Table\s*\d+', line, re.IGNORECASE)`. -/
def matchTableTitle (l : List Char) : Bool :=
  match dropCaseless ("table".toList) l with
  | none => false
  | some r =>
    match r.dropWhile pyIsSpace with
    | [] => false
    | c :: _ => c.isDigit

/-- The line indices visited by `range(index - 1, max(index - 5, -1), -1)`:
up to four indices descending from `index - 1`, never below `0`. -/
def titleWindow (index : Nat) : List Nat :=
  ((List.range index).drop (index - 4)).reverse

def defaultTitle : List Char := "Auto-detected Table".toList

/-- Loop of `find_table_title`; `Except.error` models the `IndexError` raised
by `lines[i]` when `i` is out of range. -/
def findTitleGo (lines : List (List Char)) : List Nat → Except Unit (List Char)
  | [] => .ok defaultTitle
  | i :: is =>
    match lines[i]? with
    | none => .error ()
    | some raw =>
      if matchTableTitle (pyStrip raw) then .ok (pyStrip raw) else findTitleGo lines is

/-- `find_table_title` (main.py): walk up to 4 indices backwards from `index`
and return the first stripped line matching `^Table\s*\d+` (case-insensitive),
else the literal default. -/
def find_table_title (lines : List (List Char)) (index : Nat) : Except Unit (List Char) :=
  findTitleGo lines (titleWindow index)

/-- Specification-side total description of the title lookup: first matching
stripped line in the backward window, else the default. -/
def titleSpec (lines : List (List Char)) (index : Nat) : List Char :=
  ((((titleWindow index).map fun i => pyStrip (lines[i]?.getD [])).find? matchTableTitle)).getD
    defaultTitle

/-- Specification-side formatting of one kept grid: first row becomes the
columns, the rest the rows, every cell trimmed with `""` for missing cells. -/
def formatGrid (title : List Char) (g : RawGrid) : TableRecord :=
  { title := title,
    columns := (g.headD []).map cellClean,
    rows := g.tail.map fun r => r.map cellClean,
    notes := [] }

/-- The table loop of `extract_tables_from_page`: `tbl` with fewer than 2 rows
is skipped; otherwise the title is looked up (which can raise) and the
formatted record appended.  The Bool is `false` iff an exception escaped the
loop; either way the accumulated list is what the function returns. -/
def tablesGo (lines : List (List Char)) :
    Nat → List RawGrid → List TableRecord → List TableRecord × Bool
  | _, [], acc => (acc, true)
  | idx, tbl :: rest, acc =>
    if tbl.length < 2 then tablesGo lines (idx + 1) rest acc
    else
      match find_table_title lines idx with
      | .error _ => (acc, false)
      | .ok title =>
        match tbl with
        | [] => tablesGo lines (idx + 1) rest acc  -- unreachable: tbl.length ≥ 2
        | header :: rows =>
          tablesGo lines (idx + 1) rest
            (acc ++ [{ title := title,
                       columns := header.map cellClean,
                       rows := rows.map fun r => r.map cellClean,
                       notes := [] }])

/-- Outcome of the page-level plumbing before the table loop. -/
inductive PageTables where
  /-- `page_number ≥ len(pdf.pages)`: the `if` guard fails, no loop runs. -/
  | outOfRange : PageTables
  /-- an exception in `pdfplumber.open` / `extract_text` / `extract_tables`. -/
  | failed : PageTables
  /-- detection succeeded with the given optional page text and raw grids. -/
  | detected (pageText : Option (List Char)) (raw : List RawGrid) : PageTables
deriving DecidableEq

/-- `page.extract_text().split("\n") if page.extract_text() else []`. -/
def linesOfText : Option (List Char) → List (List Char)
  | none => []
  | some t => if t.isEmpty then [] else splitNl t

/-- `extract_tables_from_page` (main.py): any exception is swallowed and the
list accumulated so far is returned. -/
def extract_tables_from_page : PageTables → List TableRecord
  | .outOfRange => []
  | .failed => []
  | .detected t raw => (tablesGo (linesOfText t) 0 raw []).1

/-- Specification-side description of the per-grid filtering/formatting when
no exception interferes: drop grids with fewer than 2 rows, format the rest. -/
def keptTables (lines : List (List Char)) : Nat → List RawGrid → List TableRecord
  | _, [] => []
  | idx, g :: rest =>
    if g.length < 2 then keptTables lines (idx + 1) rest
    else formatGrid (titleSpec lines idx) g :: keptTables lines (idx + 1) rest

/-! ### Figures: regex `(Fig(?:ure)?\.?\s*\d+[^:\n]*)`, IGNORECASE -/

structure FigureRecord where
  figure_number : List Char
  title : List Char
deriving DecidableEq

/-- `\s*\d+[^:\n]*` at `r` (maximal munch throughout; shortening `\s*` leaves
whitespace where a digit is required). Returns the consumed length. -/
def figNumTail (r : List Char) : Option Nat :=
  if ((r.dropWhile pyIsSpace).takeWhile Char.isDigit).isEmpty then none
  else
    some ((r.takeWhile pyIsSpace).length +
      ((r.dropWhile pyIsSpace).takeWhile Char.isDigit).length +
      (((r.dropWhile pyIsSpace).drop ((r.dropWhile pyIsSpace).takeWhile Char.isDigit).length).takeWhile
        (fun c => !(c == ':') && !(c == '\n'))).length)

/-- `\.?\s*\d+[^:\n]*`: greedy optional period with backtracking. -/
def figDotTail (r : List Char) : Option Nat :=
  match r with
  | '.' :: r1 =>
    (match figNumTail r1 with
     | some n => some (n + 1)
     | none => figNumTail r)
  | _ => figNumTail r

/-- The figure pattern anchored at the head of `l`: `Fig`, greedy optional
`ure` (with backtracking), then `figDotTail`.  Returns the matched length. -/
def matchFigAt (l : List Char) : Option Nat :=
  match dropCaseless ("fig".toList) l with
  | none => none
  | some r0 =>
    match dropCaseless ("ure".toList) r0 with
    | some r1 =>
      (match figDotTail r1 with
       | some n => some (6 + n)
       | none => (figDotTail r0).map (fun n => 3 + n))
    | none => (figDotTail r0).map (fun n => 3 + n)

/-- `re.findall` scan for the figure pattern: leftmost, non-overlapping;
each element is the matched fragment (original characters). -/
def figScanGo : Nat → List Char → List (List Char)
  | 0, _ => []
  | _ + 1, [] => []
  | fuel + 1, c :: cs =>
    match matchFigAt (c :: cs) with
    | some n => ((c :: cs).take n) :: figScanGo fuel ((c :: cs).drop n)
    | none => figScanGo fuel cs

def figMatches (text : List Char) : List (List Char) :=
  figScanGo (text.length + 1) text

/-- The record built from one matched fragment, if any: `fig.split(None, 2)`,
then tokens 1 and 2 become number (periods stripped) and title; fragments
with fewer than two tokens yield nothing. -/
def figRecordOf (frag : List Char) : Option FigureRecord :=
  match pySplitWs2 frag with
  | _ :: p1 :: p2 :: _ => some { figure_number := stripDots p1, title := pyStrip p2 }
  | [_, p1] => some { figure_number := stripDots p1, title := [] }
  | _ => none

/-- The loop of `extract_figures`. -/
def extractFiguresGo : List (List Char) → List FigureRecord
  | [] => []
  | f :: fs =>
    if 3 ≤ (pySplitWs2 f).length then
      { figure_number := stripDots ((pySplitWs2 f).getD 1 []),
        title := pyStrip ((pySplitWs2 f).getD 2 []) } :: extractFiguresGo fs
    else if (pySplitWs2 f).length = 2 then
      { figure_number := stripDots ((pySplitWs2 f).getD 1 []), title := [] } :: extractFiguresGo fs
    else extractFiguresGo fs

/-- `extract_figures` (main.py). -/
def extract_figures (text : List Char) : List FigureRecord :=
  extractFiguresGo (figMatches text)

/-! ### Document assembly (`process_pdf`) -/

structure DocumentRecord where
  clause_number : List Char
  clause_title : List Char
  page : Nat
  paragraphs : List (List Char)
  tables : List TableRecord
  figures : List FigureRecord
deriving DecidableEq

/-- One page of input: the embedded text layer (which can raise), the OCR
text used as fallback, and the outcome of external table detection. -/
structure PageInput where
  primaryText : Except Unit (List Char)
  ocrText : List Char
  tableData : PageTables

/-- The page text actually used: the text layer, or OCR when extraction
failed, yielded nothing, or fewer than 20 characters after trimming. -/
def pageRawText (p : PageInput) : List Char :=
  match p.primaryText with
  | .error _ => p.ocrText
  | .ok t => if t.isEmpty || (pyStrip t).length < 20 then p.ocrText else t

def pageCleanText (p : PageInput) : List Char :=
  joinNl (clean_paragraphs (pageRawText p))

def pageTablesOf (p : PageInput) : List TableRecord :=
  extract_tables_from_page p.tableData

def pageFiguresOf (p : PageInput) : List FigureRecord :=
  extract_figures (pageCleanText p)

/-- Records built for one page: each clause block (or the fallback block) is
completed with the page number and the page-scoped tables and figures. -/
def recordsForPage (i : Nat) (p : PageInput) : List DocumentRecord :=
  (segmentPage (pageRawText p)).map fun b =>
    { clause_number := b.clause_number, clause_title := b.clause_title,
      page := i + 1, paragraphs := b.paragraphs,
      tables := pageTablesOf p, figures := pageFiguresOf p }

def processGo : Nat → List PageInput → List DocumentRecord
  | _, [] => []
  | i, p :: ps => recordsForPage i p ++ processGo (i + 1) ps

/-- `process_pdf` (main.py), over the per-page inputs. -/
def process_pdf (pages : List PageInput) : List DocumentRecord :=
  processGo 0 pages

/-! ### Embedding indexer (`embed_and_store`) -/

structure IndexEntry where
  text : List Char
  page : Nat
  clause : List Char
  title : List Char
deriving DecidableEq

def joinPipe (xs : List (List Char)) : List Char :=
  List.intercalate (" | ".toList) xs

def clauseHeaderLine (d : DocumentRecord) : List Char :=
  "Clause ".toList ++ d.clause_number ++ ": ".toList ++ d.clause_title

def figureLine (f : FigureRecord) : List Char :=
  "Figure ".toList ++ f.figure_number ++ ": ".toList ++ f.title

/-- Table lines of the blob, main.py variant: unconditional title line, the
pipe-joined columns, one pipe-joined line per row, one note line per note. -/
def tableLines (t : TableRecord) : List (List Char) :=
  ("Table: ".toList ++ t.title) :: joinPipe t.columns :: t.rows.map joinPipe ++
    t.notes.map fun n => "Note: ".toList ++ n

/-- The parts list of the blob, main.py variant (paragraphs are taken as-is). -/
def flattenParts (d : DocumentRecord) : List (List Char) :=
  (if d.clause_number.isEmpty then [] else [clauseHeaderLine d]) ++ d.paragraphs ++
    (d.tables.map tableLines).flatten ++ d.figures.map figureLine

/-- `full_text = " ".join(parts).strip()` (main.py). -/
def full_text (d : DocumentRecord) : List Char :=
  pyStrip (List.intercalate [' '] (flattenParts d))

def entryOf (d : DocumentRecord) : IndexEntry :=
  { text := full_text d, page := d.page, clause := d.clause_number, title := d.clause_title }

/-- Loop of `embed_and_store` (main.py): records with an empty blob are
skipped, the rest appended; `count` counts this run's additions. -/
def embedGo : List DocumentRecord → List IndexEntry → Nat → List IndexEntry × Nat
  | [], coll, count => (coll, count)
  | d :: ds, coll, count =>
    if (full_text d).isEmpty then embedGo ds coll count
    else embedGo ds (coll ++ [entryOf d]) (count + 1)

/-- `embed_and_store` (main.py): returns the updated collection and the count
of entries written during this run. -/
def embed_and_store (data : List DocumentRecord) (coll : List IndexEntry) :
    List IndexEntry × Nat :=
  embedGo data coll 0

/-- Table lines, extract_embed_fastapi.py variant: the title line only when
the title is non-empty. -/
def tableLinesApi (t : TableRecord) : List (List Char) :=
  (if t.title.isEmpty then [] else ["Table: ".toList ++ t.title]) ++
    joinPipe t.columns :: t.rows.map joinPipe ++ t.notes.map fun n => "Note: ".toList ++ n

/-- Parts list, extract_embed_fastapi.py variant: paragraphs are stripped and
blank ones dropped. -/
def flattenPartsApi (d : DocumentRecord) : List (List Char) :=
  (if d.clause_number.isEmpty then [] else [clauseHeaderLine d]) ++
    (d.paragraphs.filterMap fun par =>
      if (pyStrip par).isEmpty then none else some (pyStrip par)) ++
    (d.tables.map tableLinesApi).flatten ++ d.figures.map figureLine

def full_text_api (d : DocumentRecord) : List Char :=
  pyStrip (List.intercalate [' '] (flattenPartsApi d))

def entryOfApi (d : DocumentRecord) : IndexEntry :=
  { text := full_text_api d, page := d.page, clause := d.clause_number, title := d.clause_title }

def embedGoApi : List DocumentRecord → List IndexEntry → List IndexEntry
  | [], coll => coll
  | d :: ds, coll =>
    if (full_text_api d).isEmpty then embedGoApi ds coll
    else embedGoApi ds (coll ++ [entryOfApi d])

/-- `embed_and_store` (extract_embed_fastapi.py): same loop with no run
counter; it returns `collection.count()`, the total collection size. -/
def embed_and_store_api (data : List DocumentRecord) (coll : List IndexEntry) :
    List IndexEntry × Nat :=
  (embedGoApi data coll, (embedGoApi data coll).length)

/-! ### Query pipeline (`chat_with_nbc`, bot.py) -/

structure ChatMeta where
  page : Option Nat
  clause : Option (List Char)
deriving DecidableEq

structure QueryResult where
  documents : List (List Char)
  metadatas : List ChatMeta
deriving DecidableEq

structure ChatRequest where
  collection_id : List Char
  query : List Char
  top_k : Nat
deriving DecidableEq

inductive ChatResponse where
  | httpError (code : Nat) (detail : List Char) : ChatResponse
  | answer (text : List Char) : ChatResponse
deriving DecidableEq

def natChars (n : Nat) : List Char := Nat.toDigits 10 n

def metaPageChars (m : ChatMeta) : List Char :=
  match m.page with
  | none => "Unknown".toList
  | some n => natChars n

def metaClauseChars (m : ChatMeta) : List Char :=
  match m.clause with
  | none => "N/A".toList
  | some c => c

/-- One entry of the numbered context block:
`"[{i+1}] Page {page} | Clause {clause}:\n{chunk.strip()}\n\n"`. -/
def contextEntry (i : Nat) (chunk : List Char) (m : ChatMeta) : List Char :=
  "[".toList ++ natChars (i + 1) ++ "] Page ".toList ++ metaPageChars m ++
    " | Clause ".toList ++ metaClauseChars m ++ ":\n".toList ++ pyStrip chunk ++ "\n\n".toList

def contextGo : Nat → List (List Char) → List ChatMeta → List Char
  | _, [], _ => []
  | _, _ :: _, [] => []
  | i, d :: ds, m :: ms => contextEntry i d m ++ contextGo (i + 1) ds ms

def context_str (docs : List (List Char)) (metas : List ChatMeta) : List Char :=
  contextGo 0 docs metas

/-- The fixed instruction template around the context (ASCII rendering of the
prompt text; punctuation that the checker cannot carry is elided). -/
def promptHead : List Char :=
  ("You are a senior building code consultant specializing in the National Building Code (NBC) of India 2016 Volumes.\n\nYour job is to answer user questions using only the provided NBC context. You must ensure clarity, accuracy, and reference every answer to relevant clauses and pages.\n\nFollow these strict guidelines for every response:\n\n1. ONLY use the context provided - do not guess, assume, or fabricate information.\n2. Answer concisely and clearly, using bullet points or numbered steps if appropriate.\n3. If applicable, include the exact clause number and page number where the answer is found.\n4. If a figure or table is referenced, include the Table/Figure number and its title or summary.\n5. If the context does not contain the answer, say: The provided NBC context does not contain information relevant to this question.\n\nAlways format your answer in this structure: Clause, Page, Answer, Reference.\n\nTone: Professional, concise, fact-based - no opinions, filler, or friendly small talk.\n\nContext:\n").toList

def buildPrompt (ctx query : List Char) : List Char :=
  promptHead ++ ctx ++ "\n\nQuestion: ".toList ++ query ++ "\n".toList

def noContextMsg : List Char :=
  "No relevant context found for your query.".toList

/-- `chat_with_nbc` (bot.py), as a function of the outcomes of its external
collaborators.  The Bool records whether the completion model was called. -/
def chat_with_nbc (collectionFound : Bool)
    (queryOutcome : Except (List Char) QueryResult)
    (llm : List Char → Except (List Char) (List Char))
    (req : ChatRequest) : ChatResponse × Bool :=
  if !collectionFound then
    (.httpError 404 ("Collection ".toList ++ req.collection_id ++ " not found.".toList), false)
  else
    match queryOutcome with
    | .error e => (.httpError 500 ("ChromaDB query failed: ".toList ++ e), false)
    | .ok res =>
      if res.documents.isEmpty then (.answer noContextMsg, false)
      else
        match llm (buildPrompt (context_str res.documents res.metadatas) req.query) with
        | .error e => (.httpError 500 ("LLM failed: ".toList ++ e), true)
        | .ok ans => (.answer (pyStrip ans), true)

/-! ### Concrete inputs used in the example theorems -/

def scenarioText : List Char :=
  ("4.1 Fire Exits\nEvery building shall have at least two exits.\n\n4.2 Means of Escape\nA clear path to the exit shall be maintained.").toList

def scenarioBlockA : ClauseBlock :=
  { clause_number := "4.1".toList, clause_title := "Fire Exits".toList,
    paragraphs := ["Every building shall have at least two exits.".toList] }

def scenarioBlockB : ClauseBlock :=
  { clause_number := "4.2".toList, clause_title := "Means of Escape".toList,
    paragraphs := ["A clear path to the exit shall be maintained.".toList] }

/-- A page text with no clause marker at all. -/
def noMarkerText : List Char := "General remarks page".toList

/-- A raw grid with two rows of one cell each. -/
def gA : RawGrid := [[some ['a']], [some ['b']]]

/-- A one-line page text, shorter than the table indices will require. -/
def linesX : List (List Char) := [['x']]

def titleLinesW : List (List Char) := ["Table 3 Loads".toList, "x".toList]

/-- A record with a clause number, hence a non-empty blob. -/
def docA : DocumentRecord :=
  { clause_number := ['1'], clause_title := "Safety".toList, page := 1,
    paragraphs := [], tables := [], figures := [] }

/-- A pre-existing collection entry. -/
def e0 : IndexEntry := { text := ['x'], page := 1, clause := [], title := [] }

/-- A page whose text carries two clause markers. -/
def pageW : PageInput :=
  { primaryText := .ok ("1.1 Safety First\nBe safe.\n1.2 Second Rule\nDo well.".toList),
    ocrText := [], tableData := .detected none [] }

def recW1 : DocumentRecord :=
  { clause_number := "1.1".toList, clause_title := "Safety First".toList, page := 1,
    paragraphs := ["Be safe.".toList], tables := [], figures := [] }

def recW2 : DocumentRecord :=
  { clause_number := "1.2".toList, clause_title := "Second Rule".toList, page := 1,
    paragraphs := ["Do well.".toList], tables := [], figures := [] }

/-! ### Helper lemmas on lists and characters -/

theorem tw_split {α : Type} (p : α → Bool) (l : List α) :
    l = l.takeWhile p ++ l.drop (l.takeWhile p).length := by
  induction l with
  | nil => rfl
  | cons c cs ih =>
    by_cases h : p c
    · rw [List.takeWhile_cons_of_pos h]
      simp only [List.length_cons, List.drop_succ_cons, List.cons_append]
      exact congrArg (c :: ·) ih
    · simp [List.takeWhile_cons_of_neg h]

theorem space_cases {c : Char} (h : pyIsSpace c = true) :
    c = ' ' ∨ c = '\t' ∨ c = '\n' ∨ c = '\r' ∨ c = '\x0b' ∨ c = '\x0c' := by
  have h' := h
  simp only [pyIsSpace, Bool.or_eq_true, beq_iff_eq] at h'
  tauto

theorem upper_not_space {c : Char} (h : c.isUpper = true) : pyIsSpace c = false := by
  cases hs : pyIsSpace c with
  | false => rfl
  | true =>
    rcases space_cases hs with h1 | h1 | h1 | h1 | h1 | h1 <;> subst h1 <;>
      exact absurd h (by decide)

theorem space_not_digit {c : Char} (h : pyIsSpace c = true) : c.isDigit = false := by
  rcases space_cases h with h1 | h1 | h1 | h1 | h1 | h1 <;> subst h1 <;> decide

theorem space_ne_dot {c : Char} (h : pyIsSpace c = true) : c ≠ '.' := by
  rcases space_cases h with h1 | h1 | h1 | h1 | h1 | h1 <;> subst h1 <;> decide

/-! ### Lemmas about the dot-group parser -/

theorem parseDotGroupsF_nil (fuel : Nat) : parseDotGroupsF fuel [] = none := by
  cases fuel <;> rfl

theorem parseDotGroupsF_head_ne {w : Char} (hw : w ≠ '.') (fuel : Nat) (rs : List Char) :
    parseDotGroupsF fuel (w :: rs) = none := by
  cases fuel with
  | zero => rfl
  | succ f => simp [parseDotGroupsF, hw]

theorem dotChunks_head {gs : List (List Char)} (h : gs ≠ []) :
    ∃ t, dotChunks gs = '.' :: t := by
  match gs with
  | [] => exact absurd rfl h
  | d :: gs' => exact ⟨d ++ dotChunks gs', by simp [dotChunks]⟩

theorem parseDotGroupsF_sound :
    ∀ (fuel : Nat) (l g r : List Char), parseDotGroupsF fuel l = some (g, r) →
      l = g ++ r ∧ DotGroupsShape g := by
  intro fuel
  induction fuel with
  | zero => intro l g r h; simp [parseDotGroupsF] at h
  | succ f ih =>
    intro l g r h
    match l with
    | [] => simp [parseDotGroupsF] at h
    | c :: rest =>
      by_cases hc : c = '.'
      case neg => rw [parseDotGroupsF_head_ne hc] at h; exact absurd h (by simp)
      subst hc
      rw [parseDotGroupsF] at h
      rw [if_pos rfl] at h
      by_cases he : (rest.takeWhile Char.isDigit).isEmpty
      case pos => rw [if_pos he] at h; exact absurd h (by simp)
      rw [if_neg he] at h
      have hds : rest = rest.takeWhile Char.isDigit ++
          rest.drop (rest.takeWhile Char.isDigit).length := tw_split Char.isDigit rest
      have hdsne : rest.takeWhile Char.isDigit ≠ [] := by
        simpa using he
      have hdsdig : ∀ c ∈ rest.takeWhile Char.isDigit, c.isDigit = true := fun c hm =>
        List.mem_takeWhile_imp hm
      cases hrec : parseDotGroupsF f (rest.drop (rest.takeWhile Char.isDigit).length) with
      | none =>
        rw [hrec] at h
        injection h with h1
        rw [Prod.mk.injEq] at h1
        obtain ⟨hg, hr⟩ := h1
        subst hg; subst hr
        refine ⟨by simpa using congrArg ('.' :: ·) hds, [rest.takeWhile Char.isDigit], ?_, ?_, ?_⟩
        · simp
        · intro d hd
          rcases List.mem_singleton.mp hd with rfl
          exact ⟨hdsne, hdsdig⟩
        · simp [dotChunks]
      | some gr =>
        obtain ⟨g', r'⟩ := gr
        rw [hrec] at h
        injection h with h1
        rw [Prod.mk.injEq] at h1
        obtain ⟨hg, hr⟩ := h1
        subst hg; subst hr
        obtain ⟨heq, gs', hgs'ne, hgs'cond, hgs'eq⟩ := ih _ g' r' hrec
        constructor
        · calc ('.' :: rest)
              = '.' :: (rest.takeWhile Char.isDigit ++
                  rest.drop (rest.takeWhile Char.isDigit).length) := by rw [← hds]
            _ = '.' :: (rest.takeWhile Char.isDigit ++ (g' ++ r')) := by rw [heq]
            _ = (('.' :: rest.takeWhile Char.isDigit) ++ g') ++ r' := by
                  simp [List.append_assoc]
        · refine ⟨rest.takeWhile Char.isDigit :: gs', by simp, ?_, ?_⟩
          · intro d hd
            rcases List.mem_cons.mp hd with rfl | hd'
            · exact ⟨hdsne, hdsdig⟩
            · exact hgs'cond d hd'
          · simp [dotChunks, hgs'eq, List.append_assoc]

/-- A list whose head (if any) is neither a period nor a digit is rejected. -/
theorem parseDotGroupsF_blocked {r : List Char}
    (hr : ∀ w rs, r = w :: rs → w ≠ '.' ∧ w.isDigit = false) (fuel : Nat) :
    parseDotGroupsF fuel r = none := by
  match r with
  | [] => exact parseDotGroupsF_nil fuel
  | w :: rs => exact parseDotGroupsF_head_ne (hr w rs rfl).1 fuel rs

theorem parseDotGroupsF_complete :
    ∀ (gs : List (List Char)),
      (∀ d ∈ gs, d ≠ [] ∧ ∀ c ∈ d, c.isDigit = true) →
      ∀ (r : List Char),
        (∀ w rs, r = w :: rs → w ≠ '.' ∧ w.isDigit = false) →
        ∀ fuel, (dotChunks gs ++ r).length ≤ fuel → gs ≠ [] →
          parseDotGroupsF fuel (dotChunks gs ++ r) = some (dotChunks gs, r) := by
  intro gs
  induction gs with
  | nil => intro _ r _ fuel _ hne; exact absurd rfl hne
  | cons d gs' ih =>
    intro hcond r hr fuel hfuel _
    obtain ⟨hdne, hddig⟩ := hcond d (by simp)
    have hstop : (dotChunks gs' ++ r).takeWhile Char.isDigit = [] := by
      cases gs' with
      | nil =>
        simp only [dotChunks, List.map_nil, List.flatten_nil, List.nil_append]
        match r with
        | [] => rfl
        | w :: rs => exact List.takeWhile_cons_of_neg (by simp [(hr w rs rfl).2])
      | cons e gs'' =>
        obtain ⟨t, ht⟩ := @dotChunks_head (e :: gs'') (by simp)
        rw [ht]
        exact List.takeWhile_cons_of_neg (by decide)
    have hchunk : dotChunks (d :: gs') ++ r = '.' :: (d ++ (dotChunks gs' ++ r)) := by
      simp [dotChunks, List.append_assoc]
    have htw : (d ++ (dotChunks gs' ++ r)).takeWhile Char.isDigit = d := by
      rw [List.takeWhile_append_of_pos hddig, hstop, List.append_nil]
    match fuel with
    | 0 =>
      rw [hchunk] at hfuel
      simp at hfuel
    | f + 1 =>
      rw [hchunk, parseDotGroupsF, if_pos rfl, htw,
        List.isEmpty_eq_false.mpr hdne, if_neg (by simp),
        List.drop_left d (dotChunks gs' ++ r)]
      cases gs' with
      | nil =>
        rw [show dotChunks ([] : List (List Char)) ++ r = r by simp [dotChunks]]
        rw [parseDotGroupsF_blocked hr f]
        simp [dotChunks]
      | cons e gs'' =>
        rw [ih (fun x hx => hcond x (by simp [hx])) r hr f
          (by rw [hchunk] at hfuel; simp only [List.length_cons, List.length_append] at hfuel ⊢
              omega)
          (by simp)]
        simp [dotChunks, List.append_assoc]

/-! ### Soundness and completeness of the clause-marker matcher -/

theorem matchTitleTail_sound {ds g sp r2 : List Char} {n : Nat} {g1 g2 : List Char}
    (h : matchTitleTail ds g sp r2 = some (n, g1, g2)) :
    ∃ u body r0, r2 = u :: (body ++ r0) ∧ u.isUpper = true ∧ 5 ≤ body.length ∧
      (∀ c ∈ body, (c == '\n') = false) ∧ g1 = ds ++ g ∧ g2 = u :: body := by
  match r2 with
  | [] => simp [matchTitleTail] at h
  | u :: r3 =>
    rw [matchTitleTail] at h
    by_cases hu : u.isUpper
    case neg => rw [if_neg hu] at h; exact absurd h (by simp)
    rw [if_pos hu] at h
    by_cases hlen : 5 ≤ (r3.takeWhile (fun c => !(c == '\n'))).length
    case neg => rw [if_neg hlen] at h; exact absurd h (by simp)
    rw [if_pos hlen] at h
    injection h with h1
    rw [Prod.mk.injEq] at h1
    obtain ⟨-, h2⟩ := h1
    rw [Prod.mk.injEq] at h2
    obtain ⟨hg1, hg2⟩ := h2
    refine ⟨u, r3.takeWhile (fun c => !(c == '\n')),
      r3.drop (r3.takeWhile (fun c => !(c == '\n'))).length, ?_, hu, hlen, ?_, hg1.symm, hg2.symm⟩
    · exact congrArg (u :: ·) (tw_split _ r3)
    · intro c hc
      simpa using List.mem_takeWhile_imp hc

theorem matchTitleTail_isSome {ds g sp : List Char} {u : Char} {body r0 : List Char}
    (hu : u.isUpper = true) (hb : 5 ≤ body.length)
    (hnl : ∀ c ∈ body, (c == '\n') = false) :
    (matchTitleTail ds g sp (u :: (body ++ r0))).isSome = true := by
  rw [matchTitleTail, if_pos hu]
  have htw : (body ++ r0).takeWhile (fun c => !(c == '\n')) =
      body ++ r0.takeWhile (fun c => !(c == '\n')) :=
    List.takeWhile_append_of_pos (by intro a ha; simpa using hnl a ha)
  rw [htw]
  rw [if_pos (by simp only [List.length_append]; omega)]
  rfl

theorem matchSpTail_sound {ds g r1 : List Char} {n : Nat} {g1 g2 : List Char}
    (h : matchSpTail ds g r1 = some (n, g1, g2)) :
    ∃ sp u body r0, r1 = sp ++ (u :: (body ++ r0)) ∧ sp ≠ [] ∧
      (∀ c ∈ sp, pyIsSpace c = true) ∧ u.isUpper = true ∧ 5 ≤ body.length ∧
      (∀ c ∈ body, (c == '\n') = false) ∧ g1 = ds ++ g ∧ g2 = u :: body := by
  rw [matchSpTail] at h
  by_cases he : (r1.takeWhile pyIsSpace).isEmpty
  case pos => rw [if_pos he] at h; exact absurd h (by simp)
  rw [if_neg he] at h
  obtain ⟨u, body, r0, hr2, hu, hb, hnl, hg1, hg2⟩ := matchTitleTail_sound h
  refine ⟨r1.takeWhile pyIsSpace, u, body, r0, ?_, by simpa using he,
    fun c hc => List.mem_takeWhile_imp hc, hu, hb, hnl, hg1, hg2⟩
  rw [← hr2]
  exact tw_split pyIsSpace r1

theorem matchSpTail_isSome {ds g sp : List Char} {u : Char} {body r0 : List Char}
    (hsp : sp ≠ []) (hsps : ∀ c ∈ sp, pyIsSpace c = true)
    (hu : u.isUpper = true) (hb : 5 ≤ body.length)
    (hnl : ∀ c ∈ body, (c == '\n') = false) :
    (matchSpTail ds g (sp ++ (u :: (body ++ r0)))).isSome = true := by
  have htw : (sp ++ (u :: (body ++ r0))).takeWhile pyIsSpace = sp := by
    rw [List.takeWhile_append_of_pos hsps,
      List.takeWhile_cons_of_neg (by simp [upper_not_space hu]), List.append_nil]
  rw [matchSpTail, htw, List.isEmpty_eq_false.mpr hsp, if_neg (by simp),
    List.drop_left sp (u :: (body ++ r0))]
  exact matchTitleTail_isSome hu hb hnl

theorem matchTail_sound {ds rest : List Char} {n : Nat} {g1 g2 : List Char}
    (h : matchTail ds rest = some (n, g1, g2)) :
    ∃ g sp u body r0, rest = g ++ (sp ++ (u :: (body ++ r0))) ∧ DotGroupsShape g ∧
      sp ≠ [] ∧ (∀ c ∈ sp, pyIsSpace c = true) ∧ u.isUpper = true ∧ 5 ≤ body.length ∧
      (∀ c ∈ body, (c == '\n') = false) ∧ g1 = ds ++ g ∧ g2 = u :: body := by
  rw [matchTail] at h
  cases hp : parseDotGroups rest with
  | none => rw [hp] at h; exact absurd h (by simp)
  | some gr =>
    obtain ⟨g, r1⟩ := gr
    rw [hp] at h
    obtain ⟨heq, hshape⟩ := parseDotGroupsF_sound rest.length rest g r1 hp
    obtain ⟨sp, u, body, r0, hr1, hsp, hsps, hu, hb, hnl, hg1, hg2⟩ := matchSpTail_sound h
    exact ⟨g, sp, u, body, r0, by rw [heq, hr1], hshape, hsp, hsps, hu, hb, hnl, hg1, hg2⟩

theorem matchTail_isSome {ds g sp : List Char} {u : Char} {body r0 : List Char}
    (hshape : DotGroupsShape g) (hsp : sp ≠ []) (hsps : ∀ c ∈ sp, pyIsSpace c = true)
    (hu : u.isUpper = true) (hb : 5 ≤ body.length)
    (hnl : ∀ c ∈ body, (c == '\n') = false) :
    (matchTail ds (g ++ (sp ++ (u :: (body ++ r0))))).isSome = true := by
  obtain ⟨gs, hgsne, hgscond, hgseq⟩ := hshape
  have hblock : ∀ w rs, sp ++ (u :: (body ++ r0)) = w :: rs → w ≠ '.' ∧ w.isDigit = false := by
    intro w rs hw
    match sp, hsp with
    | [], hne => exact absurd rfl hne
    | s :: sp', _ =>
      have hs : pyIsSpace s = true := hsps s (by simp)
      have hsw : s = w := by simpa using congrArg (fun l => l.headD ' ') hw
      subst hsw
      exact ⟨space_ne_dot hs, space_not_digit hs⟩
  have hparse : parseDotGroups (g ++ (sp ++ (u :: (body ++ r0)))) =
      some (g, sp ++ (u :: (body ++ r0))) := by
    rw [parseDotGroups]
    subst hgseq
    exact parseDotGroupsF_complete gs hgscond _ hblock _ (Nat.le_refl _) hgsne
  rw [matchTail, hparse]
  exact matchSpTail_isSome hsp hsps hu hb hnl

theorem matchClauseAt_isSome_iff (l : List Char) :
    (matchClauseAt l).isSome = true ↔ ClauseShape 5 l := by
  constructor
  · intro h
    match l with
    | [] => simp [matchClauseAt] at h
    | [c] => simp [matchClauseAt] at h
    | c1 :: c2 :: rest =>
      rw [matchClauseAt] at h
      by_cases hc1 : c1.isDigit
      case neg => rw [if_neg hc1] at h; simp at h
      rw [if_pos hc1] at h
      by_cases hc2 : c2.isDigit
      · rw [if_pos hc2] at h
        cases h2 : matchTail [c1, c2] rest with
        | some v =>
          obtain ⟨n, g1, g2⟩ := v
          obtain ⟨g, sp, u, body, r0, heq, hshape, hsp, hsps, hu, hb, hnl, -, -⟩ :=
            matchTail_sound h2
          exact ⟨[c1, c2], g, sp, u, body, r0, by simp [heq], by simp, by simp,
            by intro c hc; rcases List.mem_cons.mp hc with rfl | hc <;>
               simp_all, hshape, hsp, hsps, hu, hb, hnl⟩
        | none =>
          rw [h2] at h
          obtain ⟨v, hv⟩ := Option.isSome_iff_exists.mp h
          obtain ⟨n, g1, g2⟩ := v
          obtain ⟨g, sp, u, body, r0, heq, hshape, hsp, hsps, hu, hb, hnl, -, -⟩ :=
            matchTail_sound hv
          exact ⟨[c1], g, sp, u, body, r0, by simp [← heq], by simp, by simp,
            by intro c hc; rcases List.mem_singleton.mp hc with rfl; exact hc1,
            hshape, hsp, hsps, hu, hb, hnl⟩
      · rw [if_neg hc2] at h
        obtain ⟨v, hv⟩ := Option.isSome_iff_exists.mp h
        obtain ⟨n, g1, g2⟩ := v
        obtain ⟨g, sp, u, body, r0, heq, hshape, hsp, hsps, hu, hb, hnl, -, -⟩ :=
          matchTail_sound hv
        exact ⟨[c1], g, sp, u, body, r0, by simp [← heq], by simp, by simp,
          by intro c hc; rcases List.mem_singleton.mp hc with rfl; exact hc1,
          hshape, hsp, hsps, hu, hb, hnl⟩
  · rintro ⟨maj, g, sp, u, body, rest, heq, hlen1, hlen2, hdig, hshape, hsp, hsps, hu, hb, hnl⟩
    match maj, hlen1, hlen2 with
    | [a], _, _ =>
      have hshape' := hshape
      obtain ⟨gs, hgsne, -, hgseq⟩ := hshape'
      obtain ⟨t, ht⟩ := dotChunks_head hgsne
      have hgt : g = '.' :: t := by rw [hgseq, ht]
      subst heq
      have ha : a.isDigit = true := hdig a (by simp)
      rw [show ([a] ++ (g ++ (sp ++ (u :: (body ++ rest))))) =
            a :: '.' :: (t ++ (sp ++ (u :: (body ++ rest)))) by simp [hgt]]
      rw [matchClauseAt, if_pos ha, if_neg (by decide)]
      rw [show ('.' :: (t ++ (sp ++ (u :: (body ++ rest))))) =
            g ++ (sp ++ (u :: (body ++ rest))) by simp [hgt]]
      exact matchTail_isSome hshape hsp hsps hu hb hnl
    | [a, b], _, _ =>
      subst heq
      have ha : a.isDigit = true := hdig a (by simp)
      have hbd : b.isDigit = true := hdig b (by simp)
      rw [show ([a, b] ++ (g ++ (sp ++ (u :: (body ++ rest))))) =
            a :: b :: (g ++ (sp ++ (u :: (body ++ rest)))) by simp]
      rw [matchClauseAt, if_pos ha, if_pos hbd]
      cases h2 : matchTail [a, b] (g ++ (sp ++ (u :: (body ++ rest)))) with
      | some v => simp
      | none =>
        have := @matchTail_isSome [a, b] g sp u body rest hshape hsp hsps hu hb hnl
        rw [h2] at this
        simp at this

theorem clauseMarkerAt_isSome_iff (prev : Option Char) (l : List Char) :
    (clauseMarkerAt prev l).isSome = true ↔
      (prevIsDigit prev = false ∧ ClauseShape 5 l) := by
  rw [clauseMarkerAt]
  by_cases hp : prevIsDigit prev = true
  · simp [hp]
  · have hp' : prevIsDigit prev = false := by simpa using hp
    rw [if_neg (by simp [hp'])]
    rw [matchClauseAt_isSome_iff]
    simp [hp']

/-! ### Claim C2 -/

/-- C2 counterexample: read literally, the claim admits a title of five total
characters.  `"1.2 Abcde"` is a 1-digit numeral, one `.<digits>` group,
whitespace, and a five-character title starting with an uppercase letter
(`ClauseShape 4`: at least 4 characters after the uppercase letter), yet the
pattern does not recognize it: the code requires at least 5 characters after
the uppercase first letter. -/
theorem clause_marker_five_char_cex :
    matchClauseAt ("1.2 Abcde".toList) = none ∧ ClauseShape 4 ("1.2 Abcde".toList) := by
  constructor
  · decide
  · exact ⟨['1'], ['.', '2'], [' '], 'A', ['b', 'c', 'd', 'e'], [], by decide, by decide,
      by decide, by decide, ⟨[['2']], by decide, by decide, by decide⟩, by decide, by decide,
      by decide, by decide, by decide⟩

/-- C2 (amended): a position of the page text is recognized as a clause marker
iff it is not preceded by a digit and starts a numeral of 1–2 digits followed
by one or more `.<digits>` groups, whitespace, and a title made of an
uppercase letter and at least 5 further non-newline characters (at least 6
characters in total, not 5); in particular `"12.3.4 Fire Safety Provisions"`
matches with groups `12.3.4` / `Fire Safety Provisions`, and
`"123 Something Here"` does not match anywhere. -/
theorem clause_marker_spec :
    (∀ (prev : Option Char) (l : List Char),
        (clauseMarkerAt prev l).isSome = true ↔
          (prevIsDigit prev = false ∧ ClauseShape 5 l)) ∧
    scanClauses ("12.3.4 Fire Safety Provisions".toList) =
      [{ start := 0, stop := 29, num := "12.3.4".toList,
         title := "Fire Safety Provisions".toList }] ∧
    scanClauses ("123 Something Here".toList) = [] := by
  refine ⟨clauseMarkerAt_isSome_iff, by decide, by decide⟩

/-- C2 witness: the amended characterization applied at the spec's example. -/
theorem clause_marker_witness :
    prevIsDigit none = false ∧ ClauseShape 5 ("12.3.4 Fire Safety Provisions".toList) :=
  (clause_marker_spec.1 none ("12.3.4 Fire Safety Provisions".toList)).mp (by decide)

/-! ### Claim C1 -/

theorem blocksOf_get? (text : List Char) :
    ∀ (ms : List ClauseMatch) (i : Nat),
      (blocksOf text ms).get? i = (ms.get? i).map fun m =>
        { clause_number := m.num, clause_title := pyStrip m.title,
          paragraphs := clean_paragraphs (pySlice text m.stop (nextStart text (ms.get? (i + 1)))) } := by
  intro ms
  induction ms with
  | nil => intro i; simp [blocksOf]
  | cons m rest ih =>
    intro i
    match i with
    | 0 => cases rest <;> simp [blocksOf, nextStart]
    | i + 1 => simpa [blocksOf] using ih i

/-- C1: for every page text, the clause blocks are in bijection with the
clause-marker matches in position order: block `i` carries the two captured
groups as `clause_number` and (stripped) `clause_title`, and its paragraphs
are the cleaned text between the end of match `i` and the start of match
`i + 1` (end of text for the last match); a page whose cleaned text has no
match yields one single block with empty number and title; and the spec's
end-to-end scenario yields exactly the two stated blocks. -/
theorem clause_segmentation_spec :
    (∀ (text : List Char) (i : Nat),
        (extract_clause_blocks text).get? i = ((scanClauses text).get? i).map fun m =>
          { clause_number := m.num, clause_title := pyStrip m.title,
            paragraphs := clean_paragraphs
              (pySlice text m.stop (nextStart text ((scanClauses text).get? (i + 1)))) }) ∧
    (∀ text : List Char, scanClauses (joinNl (clean_paragraphs text)) = [] →
        segmentPage text =
          [{ clause_number := [], clause_title := [],
             paragraphs := clean_paragraphs (joinNl (clean_paragraphs text)) }]) ∧
    segmentPage scenarioText = [scenarioBlockA, scenarioBlockB] := by
  refine ⟨?_, ?_, by decide⟩
  · intro text i
    exact blocksOf_get? text (scanClauses text) i
  · intro text h
    rw [segmentPage, extract_clause_blocks, h]
    simp [blocksOf]

/-- C1 witness: segmentation of a page with no clause marker falls back to
the single untitled block. -/
theorem clause_segmentation_witness :
    segmentPage noMarkerText =
      [{ clause_number := [], clause_title := [],
         paragraphs := clean_paragraphs (joinNl (clean_paragraphs noMarkerText)) }] :=
  clause_segmentation_spec.2.1 noMarkerText (by decide)

/-! ### Claim C3 -/

/-- C3: a query against an existing collection whose retrieval step returns
zero neighbors short-circuits with the fixed literal response
`"No relevant context found for your query."` and never calls the completion
model. -/
theorem chat_zero_neighbor_spec :
    ∀ (llm : List Char → Except (List Char) (List Char)) (req : ChatRequest)
      (r : QueryResult), r.documents = [] →
      chat_with_nbc true (.ok r) llm req = (ChatResponse.answer noContextMsg, false) := by
  intro llm req r h
  simp [chat_with_nbc, h]

/-- C3 witness: the zero-neighbor short-circuit at a concrete request. -/
theorem chat_zero_neighbor_witness :
    chat_with_nbc true (.ok { documents := [], metadatas := [] })
      (fun _ => .ok []) { collection_id := [], query := [], top_k := 20 } =
      (ChatResponse.answer noContextMsg, false) :=
  chat_zero_neighbor_spec (fun _ => .ok []) _ _ rfl

/-! ### Claims C4, C5, C6: the table pipeline -/

theorem findTitleGo_cons_pos {lines : List (List Char)} {i : Nat} {is : List Nat}
    {x : List Char} (hx : lines[i]? = some x)
    (hm : matchTableTitle (pyStrip x) = true) :
    findTitleGo lines (i :: is) = .ok (pyStrip x) := by
  simp [findTitleGo, hx, hm]

theorem findTitleGo_cons_neg {lines : List (List Char)} {i : Nat} {is : List Nat}
    {x : List Char} (hx : lines[i]? = some x)
    (hm : ¬ matchTableTitle (pyStrip x) = true) :
    findTitleGo lines (i :: is) = findTitleGo lines is := by
  simp [findTitleGo, hx, hm]

theorem findTitleGo_ok (lines : List (List Char)) :
    ∀ idxs : List Nat, (∀ i ∈ idxs, i < lines.length) →
      findTitleGo lines idxs =
        .ok (((idxs.map fun i => pyStrip (lines[i]?.getD [])).find? matchTableTitle).getD
          defaultTitle) := by
  intro idxs
  induction idxs with
  | nil => intro _; simp [findTitleGo]
  | cons i is ih =>
    intro h
    have hi : i < lines.length := h i (by simp)
    obtain ⟨x, hx⟩ : ∃ x, lines[i]? = some x := ⟨_, List.getElem?_eq_getElem hi⟩
    by_cases hm : matchTableTitle (pyStrip x)
    · rw [findTitleGo_cons_pos hx hm]
      simp only [List.map_cons, hx, Option.getD_some, List.find?_cons_of_pos _ hm]
    · rw [findTitleGo_cons_neg hx hm, ih (fun j hj => h j (by simp [hj]))]
      simp only [List.map_cons, hx, Option.getD_some, List.find?_cons_of_neg _ hm]

theorem titleWindow_lt {index i : Nat} (hi : i ∈ titleWindow index) : i < index := by
  rw [titleWindow, List.mem_reverse] at hi
  exact List.mem_range.mp (List.mem_of_mem_drop hi)

theorem find_table_title_ok (lines : List (List Char)) (index : Nat)
    (h : ∀ i ∈ titleWindow index, i < lines.length) :
    find_table_title lines index = .ok (titleSpec lines index) :=
  findTitleGo_ok lines (titleWindow index) h

/-! Controlled unfolding equations for the table loop. -/

theorem tablesGo_nil (lines : List (List Char)) (idx : Nat) (acc : List TableRecord) :
    tablesGo lines idx [] acc = (acc, true) := rfl

theorem tablesGo_cons_lt {lines : List (List Char)} {idx : Nat} {g : RawGrid}
    {rest : List RawGrid} {acc : List TableRecord} (hg : g.length < 2) :
    tablesGo lines idx (g :: rest) acc = tablesGo lines (idx + 1) rest acc := by
  simp [tablesGo, hg]

theorem tablesGo_cons_err {lines : List (List Char)} {idx : Nat} {g : RawGrid}
    {rest : List RawGrid} {acc : List TableRecord} {e : Unit}
    (hg : ¬ g.length < 2) (hft : find_table_title lines idx = .error e) :
    tablesGo lines idx (g :: rest) acc = (acc, false) := by
  match g, hg with
  | header :: rows, hg2 =>
    simp [tablesGo, hft]
    intro hcon
    exact absurd (by simpa using hcon) hg2

theorem tablesGo_cons_ok {lines : List (List Char)} {idx : Nat}
    {header : List (Option (List Char))} {rows : List (List (Option (List Char)))}
    {rest : List RawGrid} {acc : List TableRecord} {title : List Char}
    (hg : ¬ (header :: rows).length < 2)
    (hft : find_table_title lines idx = .ok title) :
    tablesGo lines idx ((header :: rows) :: rest) acc =
      tablesGo lines (idx + 1) rest
        (acc ++ [{ title := title, columns := header.map cellClean,
                   rows := rows.map fun r => r.map cellClean, notes := [] }]) := by
  simp [tablesGo, hft]
  intro hcon
  exact absurd (by simpa using hcon) hg

/-- When every visited index is in bounds, the loop runs to completion and
produces exactly the claim-side description. -/
theorem tablesGo_ok (lines : List (List Char)) :
    ∀ (raw : List RawGrid) (idx : Nat) (acc : List TableRecord),
      (∀ j, idx ≤ j → j < idx + raw.length → j ≤ lines.length) →
      tablesGo lines idx raw acc = (acc ++ keptTables lines idx raw, true) := by
  intro raw
  induction raw with
  | nil => intro idx acc _; simp [tablesGo_nil, keptTables]
  | cons g rest ih =>
    intro idx acc h
    by_cases hg : g.length < 2
    · rw [tablesGo_cons_lt hg, keptTables, if_pos hg]
      exact ih (idx + 1) acc (fun j h1 h2 => h j (by omega) (by simp at h2 ⊢; omega))
    · have hidx : idx ≤ lines.length := h idx (Nat.le_refl idx) (by simp)
      have hwin : ∀ i ∈ titleWindow idx, i < lines.length := fun i hi =>
        Nat.lt_of_lt_of_le (titleWindow_lt hi) hidx
      match g, hg with
      | header :: rows, hg2 =>
        rw [tablesGo_cons_ok hg2 (find_table_title_ok lines idx hwin)]
        rw [ih (idx + 1) _ (fun j h1 h2 => h j (by omega) (by simp at h2 ⊢; omega))]
        rw [keptTables, if_neg hg2]
        simp [formatGrid]

/-- C4 counterexample: on a page whose line list is empty, two detected
two-row grids produce only one `TableRecord` — the title lookup for the
second grid raises and aborts the loop, so not every grid with at least two
rows produces a record. -/
theorem table_filter_cex :
    (tablesGo [] 0 [gA, gA] []).1.length = 1 ∧
    ([gA, gA].filter fun g => decide (2 ≤ g.length)).length = 2 := by decide

/-- C4 (amended): provided the backward title lookups stay inside the page's
line list (for which `raw.length ≤ lines.length + 1` suffices), every grid
with fewer than 2 rows is discarded and every grid with at least 2 rows
produces a `TableRecord` whose columns are the first row and whose rows are
the remaining rows, with every cell trimmed and `""` for missing cells
(`keptTables`); a title-lookup exception instead drops that grid and all
later ones.  Unconditionally, every emitted record has at least one data row
besides the header. -/
theorem table_filter_spec :
    (∀ (lines : List (List Char)) (raw : List RawGrid),
        raw.length ≤ lines.length + 1 →
        (tablesGo lines 0 raw []).1 = keptTables lines 0 raw) ∧
    (∀ (lines : List (List Char)) (idx : Nat) (raw : List RawGrid)
        (acc : List TableRecord) (t : TableRecord),
        t ∈ (tablesGo lines idx raw acc).1 → t ∈ acc ∨ 1 ≤ t.rows.length) := by
  constructor
  · intro lines raw h
    rw [tablesGo_ok lines raw 0 [] (fun j _ h2 => by omega)]
    simp
  · intro lines idx raw acc t ht
    induction raw generalizing idx acc with
    | nil => rw [tablesGo_nil] at ht; exact Or.inl ht
    | cons g rest ih =>
      by_cases hg : g.length < 2
      · rw [tablesGo_cons_lt hg] at ht
        exact ih _ _ ht
      · match g, hg with
        | header :: rows, hg2 =>
          cases hft : find_table_title lines idx with
          | error e =>
            rw [tablesGo_cons_err hg2 hft] at ht
            exact Or.inl ht
          | ok title =>
            rw [tablesGo_cons_ok hg2 hft] at ht
            rcases ih _ _ ht with hin | hrows
            · rcases List.mem_append.mp hin with hin' | hin'
              · exact Or.inl hin'
              · refine Or.inr ?_
                rcases List.mem_singleton.mp hin' with rfl
                simp only [List.length_map]
                simp only [List.length_cons] at hg2
                omega
            · exact Or.inr hrows

/-- C4 witness: the amended characterization at a concrete page. -/
theorem table_filter_witness :
    (tablesGo [] 0 [gA] []).1 = keptTables [] 0 [gA] :=
  table_filter_spec.1 [] [gA] (by decide)

/-- C5: when the visited window stays inside the line list, the title of a
detected table is the first line among the up-to-4 lines walked backwards
from the grid's position that matches `Table <number>` (case-insensitive,
anchored at line start), and the literal default `"Auto-detected Table"`
when none matches; every emitted record's title is one produced by this
lookup. -/
theorem table_title_spec :
    (∀ (lines : List (List Char)) (index : Nat),
        (∀ i ∈ titleWindow index, i < lines.length) →
        find_table_title lines index = .ok (titleSpec lines index)) ∧
    (∀ (lines : List (List Char)) (idx : Nat) (raw : List RawGrid)
        (acc : List TableRecord) (t : TableRecord),
        t ∈ (tablesGo lines idx raw acc).1 →
        t ∈ acc ∨ ∃ j, find_table_title lines j = .ok t.title) := by
  constructor
  · exact find_table_title_ok
  · intro lines idx raw acc t ht
    induction raw generalizing idx acc with
    | nil => rw [tablesGo_nil] at ht; exact Or.inl ht
    | cons g rest ih =>
      by_cases hg : g.length < 2
      · rw [tablesGo_cons_lt hg] at ht
        exact ih _ _ ht
      · match g, hg with
        | header :: rows, hg2 =>
          cases hft : find_table_title lines idx with
          | error e =>
            rw [tablesGo_cons_err hg2 hft] at ht
            exact Or.inl ht
          | ok title =>
            rw [tablesGo_cons_ok hg2 hft] at ht
            rcases ih _ _ ht with hin | hex
            · rcases List.mem_append.mp hin with hin' | hin'
              · exact Or.inl hin'
              · rcases List.mem_singleton.mp hin' with rfl
                exact Or.inr ⟨idx, hft⟩
            · exact Or.inr hex

/-- C5 witness: the characterization at a concrete window. -/
theorem table_title_witness :
    find_table_title titleLinesW 2 = .ok (titleSpec titleLinesW 2) :=
  table_title_spec.1 titleLinesW 2 (by decide)

/-- C6 counterexample: on a one-line page with three detected two-row grids,
the title lookup for the third grid raises an exception, yet the extractor
returns the two records accumulated before the failure — not an empty list. -/
theorem table_exception_cex :
    (tablesGo linesX 0 [gA, gA, gA] []).2 = false ∧
    (tablesGo linesX 0 [gA, gA, gA] []).1 ≠ [] := by decide

/-- C6 (amended): an exception before the table loop (detection failure, page
out of range) yields an empty table list; an exception inside the loop stops
it but returns the records accumulated so far — the result always equals the
successful processing of some prefix of the grids (the whole list when no
exception occurred), and no error propagates. -/
theorem table_exception_spec :
    (∀ pt : PageTables, pt = PageTables.outOfRange ∨ pt = PageTables.failed →
        extract_tables_from_page pt = []) ∧
    (∀ (lines : List (List Char)) (idx : Nat) (raw : List RawGrid)
        (acc : List TableRecord),
        ∃ k, k ≤ raw.length ∧
          (tablesGo lines idx raw acc).1 = (tablesGo lines idx (raw.take k) acc).1 ∧
          (tablesGo lines idx (raw.take k) acc).2 = true ∧
          ((tablesGo lines idx raw acc).2 = true → k = raw.length)) := by
  constructor
  · rintro pt (rfl | rfl) <;> rfl
  · intro lines idx raw acc
    induction raw generalizing idx acc with
    | nil => exact ⟨0, by simp [tablesGo_nil]⟩
    | cons g rest ih =>
      by_cases hg : g.length < 2
      · obtain ⟨k, hk, h1, h2, h3⟩ := ih (idx + 1) acc
        refine ⟨k + 1, by simpa using Nat.succ_le_succ hk, ?_, ?_, ?_⟩
        · rw [List.take_succ_cons, tablesGo_cons_lt hg, tablesGo_cons_lt hg]
          exact h1
        · rw [List.take_succ_cons, tablesGo_cons_lt hg]
          exact h2
        · rw [tablesGo_cons_lt hg]
          intro hb
          simpa using h3 hb
      · match g, hg with
        | header :: rows, hg2 =>
          cases hft : find_table_title lines idx with
          | error e =>
            refine ⟨0, Nat.zero_le _, ?_, ?_, ?_⟩
            · rw [List.take_zero, tablesGo_cons_err hg2 hft, tablesGo_nil]
            · rw [List.take_zero, tablesGo_nil]
            · rw [tablesGo_cons_err hg2 hft]
              intro hb
              simp at hb
          | ok title =>
            obtain ⟨k, hk, h1, h2, h3⟩ := ih (idx + 1)
              (acc ++ [{ title := title, columns := header.map cellClean,
                         rows := rows.map fun r => r.map cellClean, notes := [] }])
            refine ⟨k + 1, by simpa using Nat.succ_le_succ hk, ?_, ?_, ?_⟩
            · rw [List.take_succ_cons, tablesGo_cons_ok hg2 hft, tablesGo_cons_ok hg2 hft]
              exact h1
            · rw [List.take_succ_cons, tablesGo_cons_ok hg2 hft]
              exact h2
            · rw [tablesGo_cons_ok hg2 hft]
              intro hb
              simpa using h3 hb

/-- C6 witness: a pre-loop detection failure yields an empty table list. -/
theorem table_exception_witness : extract_tables_from_page PageTables.failed = [] :=
  table_exception_spec.1 PageTables.failed (Or.inr rfl)

/-! ### Claims C7, C8: the embedding indexer -/

theorem embedGo_eq :
    ∀ (data : List DocumentRecord) (coll : List IndexEntry) (n : Nat),
      embedGo data coll n =
        (coll ++ (data.filter fun d => !(full_text d).isEmpty).map entryOf,
         n + ((data.filter fun d => !(full_text d).isEmpty)).length) := by
  intro data
  induction data with
  | nil => intro coll n; simp [embedGo]
  | cons d ds ih =>
    intro coll n
    by_cases hd : (full_text d).isEmpty
    · rw [embedGo, if_pos hd, ih, List.filter_cons_of_neg (by simp [hd])]
    · rw [embedGo, if_neg hd, ih, List.filter_cons_of_pos (by simp [hd])]
      simp [List.append_assoc]
      omega

theorem embedGoApi_eq :
    ∀ (data : List DocumentRecord) (coll : List IndexEntry),
      embedGoApi data coll =
        coll ++ (data.filter fun d => !(full_text_api d).isEmpty).map entryOfApi := by
  intro data
  induction data with
  | nil => intro coll; simp [embedGoApi]
  | cons d ds ih =>
    intro coll
    by_cases hd : (full_text_api d).isEmpty
    · rw [embedGoApi, if_pos hd, ih, List.filter_cons_of_neg (by simp [hd])]
    · rw [embedGoApi, if_neg hd, ih, List.filter_cons_of_pos (by simp [hd])]
      simp [List.append_assoc]

/-- C7: the indexer appends exactly one entry per record whose flattened blob
(clause header, paragraphs, table lines, figure lines, space-joined, trimmed)
is non-empty; a record with an empty blob contributes no entry — the
resulting collection is the old one plus the entries of exactly the
non-empty-blob records, and the function is total (no error). -/
theorem empty_blob_spec :
    ∀ (data : List DocumentRecord) (coll : List IndexEntry),
      (embed_and_store data coll).1 =
        coll ++ (data.filter fun d => !(full_text d).isEmpty).map entryOf ∧
      (embed_and_store (data.filter fun d => (full_text d).isEmpty) coll).1 = coll := by
  intro data coll
  constructor
  · rw [embed_and_store, embedGo_eq]
  · rw [embed_and_store, embedGo_eq]
    have : ((data.filter fun d => (full_text d).isEmpty).filter
        fun d => !(full_text d).isEmpty) = [] := by
      rw [List.filter_filter]
      apply List.filter_eq_nil_iff.mpr
      intro d _
      simp [Bool.and_comm]
    rw [this]
    simp

/-- C8 counterexample: against a pre-existing one-entry collection, the
extract_embed_fastapi.py variant of `embed_and_store` writes one entry (one
record with a non-empty blob) but returns `collection.count() = 2`, not the
number of entries written during the run. -/
theorem store_count_cex :
    (embed_and_store_api [docA] [e0]).2 = 2 ∧
    (([docA].filter fun d => !(full_text_api d).isEmpty)).length = 1 ∧
    (embed_and_store_api [docA] [e0]).2 ≠
      (([docA].filter fun d => !(full_text_api d).isEmpty)).length := by decide

/-- C8 (amended): the main.py `embed_and_store` returns exactly the number of
entries written during the run (the records with a non-empty blob), also on a
non-empty pre-existing collection; the extract_embed_fastapi.py variant
instead returns the total size of the collection after the run (pre-existing
entries included). -/
theorem store_count_spec :
    ∀ (data : List DocumentRecord) (coll : List IndexEntry),
      (embed_and_store data coll).2 =
        ((data.filter fun d => !(full_text d).isEmpty)).length ∧
      (embed_and_store_api data coll).2 =
        coll.length + ((data.filter fun d => !(full_text_api d).isEmpty)).length := by
  intro data coll
  constructor
  · rw [embed_and_store, embedGo_eq]
    simp
  · rw [embed_and_store_api, embedGoApi_eq]
    simp

/-! ### Claim C9: page-scoped table/figure attachment -/

theorem mem_recordsForPage {i : Nat} {p : PageInput} {r : DocumentRecord}
    (h : r ∈ recordsForPage i p) :
    r.page = i + 1 ∧ r.tables = pageTablesOf p ∧ r.figures = pageFiguresOf p := by
  rw [recordsForPage] at h
  obtain ⟨b, -, rfl⟩ := List.mem_map.mp h
  exact ⟨rfl, rfl, rfl⟩

theorem processGo_page_ge :
    ∀ (ps : List PageInput) (i : Nat) (r : DocumentRecord),
      r ∈ processGo i ps → i + 1 ≤ r.page := by
  intro ps
  induction ps with
  | nil => intro i r h; simp [processGo] at h
  | cons p ps ih =>
    intro i r h
    rw [processGo] at h
    rcases List.mem_append.mp h with h1 | h2
    · exact Nat.le_of_eq (mem_recordsForPage h1).1.symm
    · exact Nat.le_of_succ_le (ih (i + 1) r h2)

theorem processGo_same_page :
    ∀ (ps : List PageInput) (i : Nat) (r1 r2 : DocumentRecord),
      r1 ∈ processGo i ps → r2 ∈ processGo i ps → r1.page = r2.page →
      r1.tables = r2.tables ∧ r1.figures = r2.figures := by
  intro ps
  induction ps with
  | nil => intro i r1 r2 h1 _ _; simp [processGo] at h1
  | cons p ps ih =>
    intro i r1 r2 h1 h2 hp
    rw [processGo] at h1 h2
    rcases List.mem_append.mp h1 with h1a | h1b <;>
      rcases List.mem_append.mp h2 with h2a | h2b
    · obtain ⟨-, ht1, hf1⟩ := mem_recordsForPage h1a
      obtain ⟨-, ht2, hf2⟩ := mem_recordsForPage h2a
      exact ⟨ht1.trans ht2.symm, hf1.trans hf2.symm⟩
    · exfalso
      have e1 := (mem_recordsForPage h1a).1
      have e2 := processGo_page_ge ps (i + 1) r2 h2b
      omega
    · exfalso
      have e1 := (mem_recordsForPage h2a).1
      have e2 := processGo_page_ge ps (i + 1) r1 h1b
      omega
    · exact ih (i + 1) r1 r2 h1b h2b hp

/-- C9: any two document records emitted for the same page of a processed
document carry identical tables lists and identical figures lists — the
attachment is page-scoped and duplicated across every clause block of the
page. -/
theorem page_attachment_spec :
    ∀ (pages : List PageInput) (r1 r2 : DocumentRecord),
      r1 ∈ process_pdf pages → r2 ∈ process_pdf pages → r1.page = r2.page →
      r1.tables = r2.tables ∧ r1.figures = r2.figures := by
  intro pages r1 r2 h1 h2 hp
  exact processGo_same_page pages 0 r1 r2 h1 h2 hp

/-- C9 witness: the two clause records of a concrete two-clause page share
their tables and figures. -/
theorem page_attachment_witness :
    recW1.tables = recW2.tables ∧ recW1.figures = recW2.figures :=
  page_attachment_spec [pageW] recW1 recW2 (by decide) (by decide) (by decide)

/-! ### Claim C10: figure captions with fewer than two tokens -/

theorem extractFiguresGo_eq :
    ∀ fs : List (List Char), extractFiguresGo fs = fs.filterMap figRecordOf := by
  intro fs
  induction fs with
  | nil => rfl
  | cons f fs ih =>
    rcases hps : pySplitWs2 f with - | ⟨a, - | ⟨b, - | ⟨c, t⟩⟩⟩ <;>
      simp [extractFiguresGo, figRecordOf, hps, ih, List.filterMap_cons]

/-- C10: a caption fragment matched by the figure pattern that splits into
fewer than two whitespace-separated tokens produces no `FigureRecord` — it is
silently dropped rather than yielding a record with an empty number; the
extractor is the token-wise `filterMap` over the matched fragments, and in
particular text `"Fig.7"` is matched by the pattern but yields no record. -/
theorem figure_tokens_spec :
    (∀ frag : List Char, (pySplitWs2 frag).length < 2 → figRecordOf frag = none) ∧
    (∀ text : List Char, extract_figures text = (figMatches text).filterMap figRecordOf) ∧
    figMatches ("Fig.7".toList) = ["Fig.7".toList] ∧
    extract_figures ("Fig.7".toList) = [] := by
  refine ⟨?_, ?_, by decide, by decide⟩
  · intro frag h
    rcases hps : pySplitWs2 frag with - | ⟨a, - | ⟨b, t⟩⟩
    · simp [figRecordOf, hps]
    · simp [figRecordOf, hps]
    · rw [hps] at h
      simp at h
      omega
  · intro text
    exact extractFiguresGo_eq (figMatches text)

/-- C10 witness: the dropped-fragment rule applied to the fragment
`"Fig.7"`. -/
theorem figure_tokens_witness : figRecordOf ("Fig.7".toList) = none :=
  figure_tokens_spec.1 ("Fig.7".toList) (by decide)

end NbcBot
